import Mathlib

/-
Shallow embedding of the screenkhorn repository (screening Sinkhorn via dual
projection).  The repository holds two near-duplicate variants of one class:

  * src/code/screenkhornBFGS.py  : class Screenkhorn; after selecting the
    active sets the constructor executes the line `self.fact_scale = 1.0`
    (a reset), its restricted_sinkhorn defaults to max_iter=100 and lbfgsb
    invokes it with max_iter=3; it always sorts the marginals for the bounds.
  * src/new_formulation.py       : class Screenkhorn; it has NO reset line,
    its restricted_sinkhorn defaults to max_iter=10 and lbfgsb invokes it with
    max_iter=10; with its default flag uniform=True it uses the raw (unsorted)
    marginals a, b where the other variant uses the sorted ones.

The two variants are embedded as one family of definitions with two Bool
flags:

  * `reset : Bool`  — true embeds screenkhornBFGS.py (the reset is present),
    false embeds new_formulation.py (no reset).
  * `sorted : Bool` — true means the bounds use the ascending-sorted
    marginals (screenkhornBFGS.py always, new_formulation.py when
    uniform=False); false means the raw marginals (new_formulation.py with
    its default uniform=True).

Machine floats are modelled by real numbers; numpy arrays of length n by
functions on Fin n or by lists; numpy fancy indexing by list gather.
-/

namespace Screenkhorn

noncomputable section

/- Inputs of Screenkhorn.__init__ : marginals a (length n) and b (length m),
cost matrix C (n x m), regularization reg, requested active sizes N and M. -/
structure Params where
  n : ℕ
  m : ℕ
  a : Fin n → ℝ
  b : Fin m → ℝ
  C : Fin n → Fin m → ℝ
  reg : ℝ
  N : ℕ
  M : ℕ

/- Gibbs kernel, `self.K = np.exp(-self.C / self.reg)`. -/
def K (P : Params) (i : Fin P.n) (j : Fin P.m) : ℝ :=
  Real.exp (-P.C i j / P.reg)

/- `K_sum_cols = self.K.sum(axis=1)`. -/
def K_sum_cols (P : Params) (i : Fin P.n) : ℝ :=
  ∑ j, K P i j

/- `K_sum_rows = self.K.T.sum(axis=1)`. -/
def K_sum_rows (P : Params) (j : Fin P.m) : ℝ :=
  ∑ i, K P i j

/- `K_min = self.K.min()` (junk value 0 when the kernel is empty). -/
def K_min (P : Params) : ℝ :=
  if h : 0 < P.n ∧ 0 < P.m then
    (Finset.univ ×ˢ Finset.univ).inf'
      ⟨(⟨0, h.1⟩, ⟨0, h.2⟩), by simp⟩ (fun p : Fin P.n × Fin P.m => K P p.1 p.2)
  else 0

/- The marginals as lists (the numpy 1-d arrays a and b). -/
def aList (P : Params) : List ℝ := List.ofFn P.a

def bList (P : Params) : List ℝ := List.ofFn P.b

/- The ratio vectors a / K_sum_cols and b / K_sum_rows. -/
def aKratios (P : Params) : List ℝ := List.ofFn (fun i => P.a i / K_sum_cols P i)

def bKratios (P : Params) : List ℝ := List.ofFn (fun j => P.b j / K_sum_rows P j)

/- `np.sort`, ascending. -/
def ascSort (l : List ℝ) : List ℝ := l.insertionSort (fun x y => x ≤ y)

/- `np.sort(...)[::-1]`, descending. -/
def descSort (l : List ℝ) : List ℝ := (ascSort l).reverse

/- Mean of the python slice l[i:j] (numpy `.mean()`; empty slice gives the
junk value 0/0 = 0 where numpy would give NaN). -/
def sliceMean (l : List ℝ) (i j : ℕ) : ℝ :=
  let s := (l.drop i).take (j - i)
  s.sum / s.length

/- `epsilon_u_square = aK_sort[self.N - 1: self.N].mean()`. -/
def epsilon_u_square (P : Params) : ℝ :=
  sliceMean (descSort (aKratios P)) (P.N - 1) P.N

/- `epsilon_v_square = bK_sort[self.M - 1: self.M].mean()`. -/
def epsilon_v_square (P : Params) : ℝ :=
  sliceMean (descSort (bKratios P)) (P.M - 1) P.M

/- Screening-branch `self.epsilon = (epsilon_u_square * epsilon_v_square)**(1/4)`. -/
def epsilonScr (P : Params) : ℝ :=
  (epsilon_u_square P * epsilon_v_square P) ^ ((1 : ℝ) / 4)

/- Screening-branch `self.fact_scale = (epsilon_v_square / epsilon_u_square)**(1/2)`,
the value in force when I and J are selected (before any reset). -/
def factScaleScr (P : Params) : ℝ :=
  (epsilon_v_square P / epsilon_u_square P) ^ ((1 : ℝ) / 2)

/- The constructor test `if self.N == n and self.M == m`. -/
def fullMode (P : Params) : Prop := P.N = P.n ∧ P.M = P.m

instance (P : Params) : Decidable (fullMode P) :=
  inferInstanceAs (Decidable (_ ∧ _))

/- The field self.epsilon at the end of __init__ (0.0 in full mode). -/
def epsilon (P : Params) : ℝ :=
  if fullMode P then 0 else epsilonScr P

/- The field self.fact_scale at the end of __init__.  In full mode both
variants set it to 1.0.  In screening mode screenkhornBFGS.py (reset = true)
executes `self.fact_scale = 1.0` right after selecting I and J, while
new_formulation.py (reset = false) keeps the computed value. -/
def fact_scale (reset : Bool) (P : Params) : ℝ :=
  if fullMode P then 1 else if reset then 1 else factScaleScr P

/- `self.I`: full range in full mode, else
`np.where(self.a >= self.epsilon**2 / self.fact_scale * K_sum_cols)[0]`,
evaluated with the pre-reset fact_scale (identical in both variants). -/
def I (P : Params) : List (Fin P.n) :=
  if fullMode P then List.finRange P.n
  else (List.finRange P.n).filter
    (fun i => decide (P.a i ≥ epsilonScr P ^ 2 / factScaleScr P * K_sum_cols P i))

/- `self.J`: full range in full mode, else
`np.where(self.b >= self.epsilon**2 * self.fact_scale * K_sum_rows)[0]`. -/
def J (P : Params) : List (Fin P.m) :=
  if fullMode P then List.finRange P.m
  else (List.finRange P.m).filter
    (fun j => decide (P.b j ≥ epsilonScr P ^ 2 * factScaleScr P * K_sum_rows P j))

/- `self.Ic = list(set(list(range(n))) - set(self.I))` (kept in increasing
order; only the underlying set of indices is ever relevant). -/
def Ic (P : Params) : List (Fin P.n) :=
  (List.finRange P.n).filter (fun i => decide (i ∉ I P))

def Jc (P : Params) : List (Fin P.m) :=
  (List.finRange P.m).filter (fun j => decide (j ∉ J P))

/- Sliced marginals and kernel blocks, position-indexed as in numpy. -/
def a_I (P : Params) (p : Fin (I P).length) : ℝ := P.a ((I P).get p)

def b_J (P : Params) (q : Fin (J P).length) : ℝ := P.b ((J P).get q)

def K_IJ (P : Params) (p : Fin (I P).length) (q : Fin (J P).length) : ℝ :=
  K P ((I P).get p) ((J P).get q)

def K_IcJ (P : Params) (p : Fin (Ic P).length) (q : Fin (J P).length) : ℝ :=
  K P ((Ic P).get p) ((J P).get q)

def K_IJc (P : Params) (p : Fin (I P).length) (q : Fin (Jc P).length) : ℝ :=
  K P ((I P).get p) ((Jc P).get q)

/- `self.vec_eps_IJc = eps * fs * (K_IJc * ones).sum(axis=1)`. -/
def vec_eps_IJc (reset : Bool) (P : Params) (p : Fin (I P).length) : ℝ :=
  epsilon P * fact_scale reset P * ∑ q, K_IJc P p q

/- `self.vec_eps_IcJ = (eps / fs) * (ones * K_IcJ).sum(axis=0)`. -/
def vec_eps_IcJ (reset : Bool) (P : Params) (q : Fin (J P).length) : ℝ :=
  (epsilon P / fact_scale reset P) * ∑ p, K_IcJ P p q

/- `self.cst_u` : scalar 0 in full mode, else `fs * eps * K_IJc.sum(axis=1)`. -/
def cst_u (reset : Bool) (P : Params) (p : Fin (I P).length) : ℝ :=
  if fullMode P then 0
  else fact_scale reset P * epsilon P * ∑ q, K_IJc P p q

/- `self.cst_v` : scalar 0 in full mode, else `eps * K_IcJ.sum(axis=0) / fs`. -/
def cst_v (reset : Bool) (P : Params) (q : Fin (J P).length) : ℝ :=
  if fullMode P then 0
  else epsilon P * (∑ p, K_IcJ P p q) / fact_scale reset P

/- The vector a_sort used by the bounds: `np.sort(a)` in screenkhornBFGS.py
and in new_formulation.py with uniform=False (sorted = true); the raw a in
new_formulation.py with its default uniform=True (sorted = false). -/
def sortedA (sorted : Bool) (P : Params) : List ℝ :=
  if sorted then ascSort (aList P) else aList P

def sortedB (sorted : Bool) (P : Params) : List ℝ :=
  if sorted then ascSort (bList P) else bList P

/- Numpy fancy indexing of a 1-d array by an index list. -/
def gather {n : ℕ} (l : List ℝ) (idx : List (Fin n)) : List ℝ :=
  idx.map (fun i => l.getD i.val 0)

/- The pair `(max(fs * a_sort[I][-1] / (eps*(m-|J|) + |J|*(b_sort[J][0] /
(eps*n*K_min))), eps/fs), a_sort[I][0] / (eps*m*K_min))` from the LBFGS box. -/
def boundUPair (reset sorted : Bool) (P : Params) : ℝ × EReal :=
  (max (fact_scale reset P * (gather (sortedA sorted P) (I P)).getLastD 0 /
        (epsilon P * ((P.m - (J P).length : ℕ) : ℝ) +
          ((J P).length : ℝ) *
            ((gather (sortedB sorted P) (J P)).getD 0 0 /
              (epsilon P * (P.n : ℝ) * K_min P))))
      (epsilon P / fact_scale reset P),
    (((gather (sortedA sorted P) (I P)).getD 0 0 /
        (epsilon P * (P.m : ℝ) * K_min P) : ℝ) : EReal))

/- The symmetric pair for bounds_v (note that the code has no fact_scale
factor on b_sort[J][-1], and the floor is eps*fs). -/
def boundVPair (reset sorted : Bool) (P : Params) : ℝ × EReal :=
  (max ((gather (sortedB sorted P) (J P)).getLastD 0 /
        (epsilon P * ((P.n - (I P).length : ℕ) : ℝ) +
          ((I P).length : ℝ) *
            ((gather (sortedA sorted P) (I P)).getD 0 0 /
              (epsilon P * (P.m : ℝ) * K_min P))))
      (epsilon P * fact_scale reset P),
    (((gather (sortedB sorted P) (J P)).getD 0 0 /
        (epsilon P * (P.n : ℝ) * K_min P) : ℝ) : EReal))

/- `self.bounds_u` : `[(0.0, np.inf)] * n` in full mode, else the screening
pair replicated `len(self.I)` times. -/
def bounds_u (reset sorted : Bool) (P : Params) : List (ℝ × EReal) :=
  if fullMode P then List.replicate P.n ((0 : ℝ), (⊤ : EReal))
  else List.replicate (I P).length (boundUPair reset sorted P)

def bounds_v (reset sorted : Bool) (P : Params) : List (ℝ × EReal) :=
  if fullMode P then List.replicate P.m ((0 : ℝ), (⊤ : EReal))
  else List.replicate (J P).length (boundVPair reset sorted P)

/- `objective(u_param, v_param)` : `u @ K_IJ @ v - fs * a_I @ log(u) -
(1/fs) * b_J @ log(v) + u @ vec_eps_IJc + vec_eps_IcJ @ v`. -/
def objective (reset : Bool) (P : Params)
    (u_param : Fin (I P).length → ℝ) (v_param : Fin (J P).length → ℝ) : ℝ :=
  (∑ p, ∑ q, u_param p * K_IJ P p q * v_param q)
    - fact_scale reset P * ∑ p, a_I P p * Real.log (u_param p)
    - (1 / fact_scale reset P) * ∑ q, b_J P q * Real.log (v_param q)
    + (∑ p, u_param p * vec_eps_IJc reset P p)
    + ∑ q, vec_eps_IcJ reset P q * v_param q

/- `grad_objective(u_param, v_param)` : the pair (grad_u, grad_v). -/
def grad_objective (reset : Bool) (P : Params)
    (u_param : Fin (I P).length → ℝ) (v_param : Fin (J P).length → ℝ) :
    (Fin (I P).length → ℝ) × (Fin (J P).length → ℝ) :=
  (fun p => (∑ q, K_IJ P p q * v_param q) + vec_eps_IJc reset P p
      - fact_scale reset P * a_I P p / u_param p,
   fun q => (∑ p, K_IJ P p q * u_param p) + vec_eps_IcJ reset P q
      - (1 / fact_scale reset P) * b_J P q / v_param q)

/- `_projection(u, epsilon)` : `u[np.where(u <= epsilon)] = epsilon`, as a
pure function on a coordinate vector. -/
def projection {k : ℕ} (u : Fin k → ℝ) (eps : ℝ) : Fin k → ℝ :=
  fun p => if u p ≤ eps then eps else u p

/- One round of the restricted-Sinkhorn while-loop body: first
`vsc = b_J / (fs * (K_IJ.T @ usc + cst_v))` using the current usc, then
`usc = (fs * a_I) / (K_IJ @ vsc + cst_u)` using the new vsc. -/
def sinkStep (reset : Bool) (P : Params)
    (uv : (Fin (I P).length → ℝ) × (Fin (J P).length → ℝ)) :
    (Fin (I P).length → ℝ) × (Fin (J P).length → ℝ) :=
  let vsc : Fin (J P).length → ℝ :=
    fun q => b_J P q / (fact_scale reset P * ((∑ p, K_IJ P p q * uv.1 p) + cst_v reset P q))
  let usc : Fin (I P).length → ℝ :=
    fun p => fact_scale reset P * a_I P p / ((∑ q, K_IJ P p q * vsc q) + cst_u reset P p)
  (usc, vsc)

/- The loop `cpt = 1; while cpt < max_iter: body; cpt += 1`, generic in the
body and the loop state. -/
def sinkLoop {α : Type} (f : α → α) (cpt max_iter : ℕ) (x : α) : α :=
  if cpt < max_iter then sinkLoop f (cpt + 1) max_iter (f x) else x
termination_by max_iter - cpt
decreasing_by omega

/- How many times that while-loop executes its body. -/
def sinkLoopCount (cpt max_iter : ℕ) : ℕ :=
  if cpt < max_iter then sinkLoopCount (cpt + 1) max_iter + 1 else 0
termination_by max_iter - cpt
decreasing_by omega

/- `restricted_sinkhorn(usc, vsc, max_iter)` : run the while-loop from
cpt = 1, then project usc at eps/fs and vsc at eps*fs. -/
def restricted_sinkhorn (reset : Bool) (P : Params)
    (usc : Fin (I P).length → ℝ) (vsc : Fin (J P).length → ℝ) (max_iter : ℕ) :
    (Fin (I P).length → ℝ) × (Fin (J P).length → ℝ) :=
  let r := sinkLoop (sinkStep reset P) 1 max_iter (usc, vsc)
  (projection r.1 (epsilon P / fact_scale reset P),
   projection r.2 (epsilon P * fact_scale reset P))

/- Warm start `u0 = np.full(len(I), 1/len(I) + eps/fs)` of lbfgsb. -/
def u0 (reset : Bool) (P : Params) : Fin (I P).length → ℝ :=
  fun _ => 1 / ((I P).length : ℝ) + epsilon P / fact_scale reset P

def v0 (reset : Bool) (P : Params) : Fin (J P).length → ℝ :=
  fun _ => 1 / ((J P).length : ℝ) + epsilon P * fact_scale reset P

/- The max_iter each variant passes to restricted_sinkhorn inside lbfgsb:
`self.restricted_sinkhorn(u0, v0, max_iter=3)` in screenkhornBFGS.py and
`max_iter=10` in new_formulation.py. -/
def bfgsWarmIter : ℕ := 3

def nfWarmIter : ℕ := 10

/- `self._bfgspost` packaged as one function theta -> (objective, gradient),
what lbfgsb hands to the external optimizer. -/
def objAndGrad (reset : Bool) (P : Params) :
    ((Fin (I P).length → ℝ) × (Fin (J P).length → ℝ)) →
      ℝ × ((Fin (I P).length → ℝ) × (Fin (J P).length → ℝ)) :=
  fun theta => (objective reset P theta.1 theta.2, grad_objective reset P theta.1 theta.2)

/- The warm-started point `u, v = self.restricted_sinkhorn(u0, v0, max_iter=...)`. -/
def warmPoint (reset : Bool) (warmIter : ℕ) (P : Params) :
    (Fin (I P).length → ℝ) × (Fin (J P).length → ℝ) :=
  restricted_sinkhorn reset P (u0 reset P) (v0 reset P) warmIter

/- `lbfgsb()`.  The external bound-constrained quasi-Newton optimizer
(scipy fmin_l_bfgs_b) is an abstract parameter: it receives the
objective-and-gradient function, the concatenated bounds list and the
warm-started point, and returns the optimized active pair theta together
with a diagnostics record d.  The function then scatters theta into
full-length vectors initialized at the epsilon floors and forms the plan
`Psc = usc_full.reshape((-1,1)) * K * vsc_full.reshape((1,-1))`. -/
def lbfgsb {D : Type} (reset sorted : Bool) (warmIter : ℕ) (P : Params)
    (optimizer :
      (((Fin (I P).length → ℝ) × (Fin (J P).length → ℝ)) → ℝ × ((Fin (I P).length → ℝ) × (Fin (J P).length → ℝ))) →
      List (ℝ × EReal) →
      ((Fin (I P).length → ℝ) × (Fin (J P).length → ℝ)) →
      ((Fin (I P).length → ℝ) × (Fin (J P).length → ℝ)) × D) :
    (Fin P.n → ℝ) × (Fin P.m → ℝ) × (Fin P.n → Fin P.m → ℝ) × D :=
  let res := optimizer (objAndGrad reset P)
    (bounds_u reset sorted P ++ bounds_v reset sorted P)
    (warmPoint reset warmIter P)
  let usc_full : Fin P.n → ℝ := fun i =>
    if h : i ∈ I P then res.1.1 ⟨(I P).indexOf i, List.indexOf_lt_length.2 h⟩
    else epsilon P / fact_scale reset P
  let vsc_full : Fin P.m → ℝ := fun j =>
    if h : j ∈ J P then res.1.2 ⟨(J P).indexOf j, List.indexOf_lt_length.2 h⟩
    else epsilon P * fact_scale reset P
  let Psc : Fin P.n → Fin P.m → ℝ := fun i j => usc_full i * K P i j * vsc_full j
  (usc_full, vsc_full, Psc, res.2)

/- A heap model for the in-place behavior of _projection: numpy arrays are
cells of a store, named by natural-number references; `next` is the next
fresh reference. -/
structure Store where
  next : ℕ
  mem : ℕ → List ℝ

/- The elementwise clamp that `u[np.where(u <= epsilon)] = epsilon` performs
on the contents of the array. -/
def clampList (l : List ℝ) (eps : ℝ) : List ℝ :=
  l.map (fun x => if x ≤ eps then eps else x)

/- `_projection(u, epsilon)` on the heap: mutate the array in place and
return the SAME reference that was passed in. -/
def projectionStore (st : Store) (r : ℕ) (eps : ℝ) : Store × ℕ :=
  (⟨st.next, Function.update st.mem r (clampList (st.mem r) eps)⟩, r)

/- Allocation of a fresh array (numpy expressions like `self.b_J / (...)`
build a new array and rebind the local name). -/
def alloc (st : Store) (l : List ℝ) : Store × ℕ :=
  (⟨st.next + 1, Function.update st.mem st.next l⟩, st.next)

/- One round of the restricted-Sinkhorn while-loop on the heap: both updates
allocate fresh arrays and rebind the local names vsc and usc. -/
def sinkStepStore (reset : Bool) (P : Params) (s : Store × ℕ × ℕ) : Store × ℕ × ℕ :=
  let st := s.1
  let ru := s.2.1
  let vlist : List ℝ := List.ofFn (fun q : Fin (J P).length =>
    b_J P q / (fact_scale reset P *
      ((∑ p, K_IJ P p q * (st.mem ru).getD p.val 0) + cst_v reset P q)))
  let st1rv := alloc st vlist
  let ulist : List ℝ := List.ofFn (fun p : Fin (I P).length =>
    fact_scale reset P * a_I P p /
      ((∑ q, K_IJ P p q * (st1rv.1.mem st1rv.2).getD q.val 0) + cst_u reset P p))
  let st2ru := alloc st1rv.1 ulist
  (st2ru.1, st2ru.2, st1rv.2)

/- `restricted_sinkhorn` on the heap: the caller passes references to its
arrays usc and vsc; after the loop the final projections mutate whatever
arrays the local names hold and return those references. -/
def restricted_sinkhorn_store (reset : Bool) (P : Params)
    (st : Store) (ru rv : ℕ) (max_iter : ℕ) : Store × ℕ × ℕ :=
  let s := sinkLoop (sinkStepStore reset P) 1 max_iter (st, ru, rv)
  let pu := projectionStore s.1 s.2.1 (epsilon P / fact_scale reset P)
  let pv := projectionStore pu.1 s.2.2 (epsilon P * fact_scale reset P)
  (pv.1, pu.2, pv.2)

end

/- General lemmas about the embedding. -/

theorem I_nodup (P : Params) : (I P).Nodup := by
  unfold I
  split
  · exact List.nodup_finRange _
  · exact (List.nodup_finRange _).filter _

theorem J_nodup (P : Params) : (J P).Nodup := by
  unfold J
  split
  · exact List.nodup_finRange _
  · exact (List.nodup_finRange _).filter _

theorem sum_get_eq {n : ℕ} {l : List (Fin n)} (hl : l = List.finRange n)
    (g : Fin n → ℝ) : (∑ p : Fin l.length, g (l.get p)) = ∑ i, g i := by
  subst hl
  calc (∑ p : Fin (List.finRange n).length, g ((List.finRange n).get p))
      = ((List.finRange n).map g).sum := by
        simp only [List.get_eq_getElem]
        exact Fin.sum_univ_get' _ _
    _ = (List.ofFn g).sum := by rw [List.ofFn_eq_map]
    _ = ∑ i, g i := Fin.sum_ofFn g

theorem I_full {P : Params} (hf : fullMode P) : I P = List.finRange P.n := by
  rw [I, if_pos hf]

theorem J_full {P : Params} (hf : fullMode P) : J P = List.finRange P.m := by
  rw [J, if_pos hf]

theorem epsilon_full {P : Params} (hf : fullMode P) : epsilon P = 0 := by
  rw [epsilon, if_pos hf]

theorem fact_scale_full (reset : Bool) {P : Params} (hf : fullMode P) :
    fact_scale reset P = 1 := by
  rw [fact_scale, if_pos hf]

theorem le_projection {k : ℕ} (u : Fin k → ℝ) (e : ℝ) (p : Fin k) :
    e ≤ projection u e p := by
  unfold projection
  split
  · exact le_rfl
  · next h => exact (lt_of_not_le h).le

theorem sinkLoop_eq_iterate {α : Type} (f : α → α) (cpt max_iter : ℕ) (x : α) :
    sinkLoop f cpt max_iter x = f^[sinkLoopCount cpt max_iter] x := by
  rw [sinkLoop, sinkLoopCount]
  by_cases h : cpt < max_iter
  · rw [if_pos h, if_pos h, sinkLoop_eq_iterate f (cpt + 1) max_iter (f x),
      Function.iterate_succ_apply]
  · rw [if_neg h, if_neg h, Function.iterate_zero_apply]
termination_by max_iter - cpt
decreasing_by omega

theorem sinkLoopCount_eq (cpt max_iter : ℕ) :
    sinkLoopCount cpt max_iter = max_iter - cpt := by
  rw [sinkLoopCount]
  by_cases h : cpt < max_iter
  · rw [if_pos h, sinkLoopCount_eq (cpt + 1) max_iter]
    omega
  · rw [if_neg h]
    omega
termination_by max_iter - cpt
decreasing_by omega

theorem sliceMean_rank (l : List ℝ) (N : ℕ) (h1 : 1 ≤ N) (h2 : N ≤ l.length) :
    sliceMean l (N - 1) N = l.getD (N - 1) 0 := by
  have hk : N - 1 < l.length := by omega
  have ht : N - (N - 1) = 1 := by omega
  dsimp only [sliceMean]
  rw [ht, List.drop_eq_getElem_cons hk, List.take_succ_cons, List.take_zero,
    List.getD_eq_getElem?_getD, List.getElem?_eq_getElem hk]
  simp only [List.sum_cons, List.sum_nil, List.length_cons, List.length_nil,
    Option.getD_some, add_zero, Nat.cast_one, div_one, Nat.cast_zero, zero_add]

/- Claim theorems. -/

/-- Claim C9 (confirmed): for every input, in full mode as in screening mode,
the active set I and its complement Ic are disjoint and cover all of
0..n-1, and symmetrically J and Jc partition 0..m-1. -/
theorem active_sets_partition (P : Params) :
    ((I P).toFinset ∩ (Ic P).toFinset = ∅ ∧
      (I P).toFinset ∪ (Ic P).toFinset = Finset.univ) ∧
    ((J P).toFinset ∩ (Jc P).toFinset = ∅ ∧
      (J P).toFinset ∪ (Jc P).toFinset = Finset.univ) := by
  refine ⟨⟨?_, ?_⟩, ?_, ?_⟩ <;>
    · ext x
      simp [Ic, Jc, List.mem_filter]
      try tauto

/-- Claim C7 (confirmed): whatever vectors enter restricted_sinkhorn, every
coordinate of the returned u is at least epsilon/fact_scale and every
coordinate of the returned v is at least epsilon*fact_scale, because the
final projection clamps any coordinate at or below the threshold up to the
threshold. -/
theorem restricted_sinkhorn_floor (reset : Bool) (P : Params)
    (usc : Fin (I P).length → ℝ) (vsc : Fin (J P).length → ℝ) (max_iter : ℕ) :
    (∀ p, epsilon P / fact_scale reset P ≤
      (restricted_sinkhorn reset P usc vsc max_iter).1 p) ∧
    (∀ q, epsilon P * fact_scale reset P ≤
      (restricted_sinkhorn reset P usc vsc max_iter).2 q) := by
  constructor
  · intro p
    exact le_projection _ _ _
  · intro q
    exact le_projection _ _ _

/-- Claim C6 (amended theorem): restricted_sinkhorn with max_iter runs the
loop body max_iter - 1 times; in particular the lbfgsb invocations perform
2 rounds (screenkhornBFGS, max_iter = 3) and 9 rounds (new_formulation,
max_iter = 10), and each round first rebuilds v from the current u and then
u from the new v, with no stopping criterion beyond the count. -/
theorem restricted_sinkhorn_fixed_rounds (reset : Bool) (P : Params)
    (usc : Fin (I P).length → ℝ) (vsc : Fin (J P).length → ℝ) :
    (∀ max_iter, restricted_sinkhorn reset P usc vsc max_iter =
      (projection ((sinkStep reset P)^[max_iter - 1] (usc, vsc)).1
        (epsilon P / fact_scale reset P),
       projection ((sinkStep reset P)^[max_iter - 1] (usc, vsc)).2
        (epsilon P * fact_scale reset P))) ∧
    bfgsWarmIter - 1 = 2 ∧ nfWarmIter - 1 = 9 ∧
    sinkStep reset P (usc, vsc) =
      (fun p => fact_scale reset P * a_I P p /
          ((∑ q, K_IJ P p q *
            (b_J P q / (fact_scale reset P *
              ((∑ p2, K_IJ P p2 q * usc p2) + cst_v reset P q)))) + cst_u reset P p),
       fun q => b_J P q / (fact_scale reset P *
          ((∑ p, K_IJ P p q * usc p) + cst_v reset P q))) := by
  refine ⟨?_, rfl, rfl, rfl⟩
  intro max_iter
  dsimp only [restricted_sinkhorn]
  rw [sinkLoop_eq_iterate, sinkLoopCount_eq]

/-- Claim C10 (confirmed): on the heap model, _projection mutates the array
it receives in place and returns the same reference, so restricted_sinkhorn
with max_iter = 1 runs zero update rounds (cpt = 1 makes the loop guard
false at once), allocates nothing, returns the very references the caller
passed in, and leaves their cells clamped at the thresholds while every
other cell of the store is untouched. -/
theorem restricted_sinkhorn_in_place (reset : Bool) (P : Params)
    (st : Store) (ru rv : ℕ) (hne : ru ≠ rv) :
    (restricted_sinkhorn_store reset P st ru rv 1).2.1 = ru ∧
    (restricted_sinkhorn_store reset P st ru rv 1).2.2 = rv ∧
    (restricted_sinkhorn_store reset P st ru rv 1).1.next = st.next ∧
    (restricted_sinkhorn_store reset P st ru rv 1).1.mem ru =
      clampList (st.mem ru) (epsilon P / fact_scale reset P) ∧
    (restricted_sinkhorn_store reset P st ru rv 1).1.mem rv =
      clampList (st.mem rv) (epsilon P * fact_scale reset P) ∧
    (∀ s, s ≠ ru → s ≠ rv →
      (restricted_sinkhorn_store reset P st ru rv 1).1.mem s = st.mem s) := by
  have hloop : sinkLoop (sinkStepStore reset P) 1 1 (st, ru, rv) = (st, ru, rv) := by
    rw [sinkLoop]
    simp
  dsimp only [restricted_sinkhorn_store]
  rw [hloop]
  dsimp only [projectionStore]
  refine ⟨rfl, rfl, rfl, ?_, ?_, ?_⟩
  · rw [Function.update_noteq hne, Function.update_same]
  · rw [Function.update_same, Function.update_noteq (Ne.symm hne)]
  · intro s h1 h2
    rw [Function.update_noteq h2, Function.update_noteq h1]

/-- Claim C2 (confirmed): in full mode (N = n and M = m) the constructor
takes I and J to be the full index ranges, epsilon = 0, fact_scale = 1,
cst_u = cst_v = 0 and the correction vectors are all-zero, and for strictly
positive u, v the objective is exactly the unconstrained dual Sinkhorn
objective u.K.v - a.log(u) - b.log(v) over the whole matrix, the gradient
reducing likewise. -/
theorem full_mode_equivalence (reset : Bool) (P : Params) (hf : fullMode P)
    (u : Fin P.n → ℝ) (v : Fin P.m → ℝ) (hu : ∀ i, 0 < u i) (hv : ∀ j, 0 < v j) :
    I P = List.finRange P.n ∧ J P = List.finRange P.m ∧
    epsilon P = 0 ∧ fact_scale reset P = 1 ∧
    (∀ p, cst_u reset P p = 0) ∧ (∀ q, cst_v reset P q = 0) ∧
    (∀ p, vec_eps_IJc reset P p = 0) ∧ (∀ q, vec_eps_IcJ reset P q = 0) ∧
    objective reset P (fun p => u ((I P).get p)) (fun q => v ((J P).get q)) =
      (∑ i, ∑ j, u i * K P i j * v j) - (∑ i, P.a i * Real.log (u i))
        - ∑ j, P.b j * Real.log (v j) ∧
    (∀ p, (grad_objective reset P (fun p' => u ((I P).get p'))
        (fun q' => v ((J P).get q'))).1 p =
      (∑ j, K P ((I P).get p) j * v j) - P.a ((I P).get p) / u ((I P).get p)) ∧
    (∀ q, (grad_objective reset P (fun p' => u ((I P).get p'))
        (fun q' => v ((J P).get q'))).2 q =
      (∑ i, K P i ((J P).get q) * u i) - P.b ((J P).get q) / v ((J P).get q)) := by
  have hI := I_full hf
  have hJ := J_full hf
  have heps := epsilon_full hf
  have hfs := fact_scale_full reset hf
  have hvec1 : ∀ p, vec_eps_IJc reset P p = 0 := by
    intro p
    rw [vec_eps_IJc, heps]
    ring
  have hvec2 : ∀ q, vec_eps_IcJ reset P q = 0 := by
    intro q
    rw [vec_eps_IcJ, heps]
    ring
  have hcu : ∀ p, cst_u reset P p = 0 := fun p => by rw [cst_u, if_pos hf]
  have hcv : ∀ q, cst_v reset P q = 0 := fun q => by rw [cst_v, if_pos hf]
  have e2 : (∑ p, a_I P p * Real.log (u ((I P).get p))) =
      ∑ i, P.a i * Real.log (u i) := by
    dsimp only [a_I]
    exact sum_get_eq hI (fun x => P.a x * Real.log (u x))
  have e3 : (∑ q, b_J P q * Real.log (v ((J P).get q))) =
      ∑ j, P.b j * Real.log (v j) := by
    dsimp only [b_J]
    exact sum_get_eq hJ (fun x => P.b x * Real.log (v x))
  have e1 : (∑ p, ∑ q, u ((I P).get p) * K_IJ P p q * v ((J P).get q)) =
      ∑ i, ∑ j, u i * K P i j * v j := by
    dsimp only [K_IJ]
    rw [sum_get_eq hI
      (fun x => ∑ q, u x * K P x ((J P).get q) * v ((J P).get q))]
    exact Finset.sum_congr rfl
      (fun i _ => sum_get_eq hJ (fun y => u i * K P i y * v y))
  refine ⟨hI, hJ, heps, hfs, hcu, hcv, hvec1, hvec2, ?_, ?_, ?_⟩
  · unfold objective
    rw [hfs]
    simp only [hvec1, hvec2, mul_zero, zero_mul, Finset.sum_const_zero,
      add_zero, one_mul, div_one]
    rw [e1, e2, e3]
  · intro p
    dsimp only [grad_objective]
    rw [hvec1 p, add_zero, hfs, one_mul]
    dsimp only [K_IJ, a_I]
    rw [sum_get_eq hJ (fun y => K P ((I P).get p) y * v y)]
  · intro q
    dsimp only [grad_objective]
    rw [hvec2 q, add_zero, hfs, div_one, one_mul]
    dsimp only [K_IJ, b_J]
    rw [sum_get_eq hI (fun x => K P x ((J P).get q) * u x)]

/-- Claim C3 (confirmed): in screening mode the constructor computes
epsilon_u_square as the element of rank N-1 (0-indexed) of a/K_sum_cols
sorted descending, epsilon_v_square as the element of rank M-1 of
b/K_sum_rows sorted descending, epsilon as the fourth root of their product
and fact_scale as the square root of their quotient. -/
theorem screening_thresholds (P : Params) (hscr : ¬ fullMode P)
    (hN1 : 1 ≤ P.N) (hNn : P.N ≤ P.n) (hM1 : 1 ≤ P.M) (hMm : P.M ≤ P.m) :
    epsilon_u_square P = (descSort (aKratios P)).getD (P.N - 1) 0 ∧
    epsilon_v_square P = (descSort (bKratios P)).getD (P.M - 1) 0 ∧
    epsilon P = ((descSort (aKratios P)).getD (P.N - 1) 0 *
        (descSort (bKratios P)).getD (P.M - 1) 0) ^ ((1 : ℝ) / 4) ∧
    factScaleScr P = Real.sqrt ((descSort (bKratios P)).getD (P.M - 1) 0 /
        (descSort (aKratios P)).getD (P.N - 1) 0) := by
  have la : (descSort (aKratios P)).length = P.n := by
    simp [descSort, ascSort, aKratios, List.length_insertionSort]
  have lb : (descSort (bKratios P)).length = P.m := by
    simp [descSort, ascSort, bKratios, List.length_insertionSort]
  have ha : epsilon_u_square P = (descSort (aKratios P)).getD (P.N - 1) 0 :=
    sliceMean_rank _ _ hN1 (la ▸ hNn)
  have hb : epsilon_v_square P = (descSort (bKratios P)).getD (P.M - 1) 0 :=
    sliceMean_rank _ _ hM1 (lb ▸ hMm)
  refine ⟨ha, hb, ?_, ?_⟩
  · rw [epsilon, if_neg hscr, epsilonScr, ha, hb]
  · rw [factScaleScr, ha, hb, Real.sqrt_eq_rpow]

/-- Claim C4 (confirmed): in screening mode the active sets are exactly the
indices whose marginal weight passes the epsilon-squared threshold scaled by
the pre-reset fact_scale, I by a[i] >= eps^2/fact_scale * K_sum_cols[i] and
J by b[j] >= eps^2*fact_scale * K_sum_rows[j], where K_sum_cols and
K_sum_rows are the kernel column and row sums. -/
theorem active_set_membership (P : Params) (hscr : ¬ fullMode P) :
    (∀ i, K_sum_cols P i = ∑ j, K P i j) ∧
    (∀ j, K_sum_rows P j = ∑ i, K P i j) ∧
    (∀ i : Fin P.n, i ∈ I P ↔
      P.a i ≥ epsilonScr P ^ 2 / factScaleScr P * K_sum_cols P i) ∧
    (∀ j : Fin P.m, j ∈ J P ↔
      P.b j ≥ epsilonScr P ^ 2 * factScaleScr P * K_sum_rows P j) := by
  refine ⟨fun _ => rfl, fun _ => rfl, fun i => ?_, fun j => ?_⟩
  · rw [I, if_neg hscr]
    simp [List.mem_filter]
  · rw [J, if_neg hscr]
    simp [List.mem_filter]

/-- Claim C1 (amended theorem): in screening mode the screenkhornBFGS
variant (reset = true) resets fact_scale to 1 right after selecting I and J,
so its correction vectors, restricted-Sinkhorn constants, box bounds,
objective and gradient are all computed with fact_scale = 1 (the scale
factors drop out); the new_formulation variant performs no such reset. -/
theorem bfgs_reset_makes_scale_inert (P : Params) (hscr : ¬ fullMode P) :
    fact_scale true P = 1 ∧
    (∀ p, vec_eps_IJc true P p = epsilon P * ∑ q, K_IJc P p q) ∧
    (∀ q, vec_eps_IcJ true P q = epsilon P * ∑ p, K_IcJ P p q) ∧
    (∀ p, cst_u true P p = epsilon P * ∑ q, K_IJc P p q) ∧
    (∀ q, cst_v true P q = epsilon P * ∑ p, K_IcJ P p q) ∧
    (∀ sorted, boundUPair true sorted P =
      (max ((gather (sortedA sorted P) (I P)).getLastD 0 /
            (epsilon P * ((P.m - (J P).length : ℕ) : ℝ) +
              ((J P).length : ℝ) *
                ((gather (sortedB sorted P) (J P)).getD 0 0 /
                  (epsilon P * (P.n : ℝ) * K_min P))))
          (epsilon P),
        (((gather (sortedA sorted P) (I P)).getD 0 0 /
            (epsilon P * (P.m : ℝ) * K_min P) : ℝ) : EReal))) ∧
    (∀ u v, objective true P u v =
      (∑ p, ∑ q, u p * K_IJ P p q * v q) - (∑ p, a_I P p * Real.log (u p))
        - (∑ q, b_J P q * Real.log (v q)) + (∑ p, u p * vec_eps_IJc true P p)
        + ∑ q, vec_eps_IcJ true P q * v q) ∧
    (∀ u v p, (grad_objective true P u v).1 p =
      (∑ q, K_IJ P p q * v q) + vec_eps_IJc true P p - a_I P p / u p) ∧
    (∀ u v q, (grad_objective true P u v).2 q =
      (∑ p, K_IJ P p q * u p) + vec_eps_IcJ true P q - b_J P q / v q) := by
  have h1 : fact_scale true P = 1 := by
    rw [fact_scale, if_neg hscr]
    simp
  refine ⟨h1, ?_, ?_, ?_, ?_, ?_, ?_, ?_, ?_⟩
  · intro p
    rw [vec_eps_IJc, h1, mul_one]
  · intro q
    rw [vec_eps_IcJ, h1, div_one]
  · intro p
    rw [cst_u, if_neg hscr, h1, one_mul]
  · intro q
    rw [cst_v, if_neg hscr, h1, div_one]
  · intro sorted
    rw [boundUPair, h1]
    rw [one_mul, div_one]
  · intro u v
    rw [objective, h1]
    rw [one_mul, div_one, one_mul]
  · intro u v p
    dsimp only [grad_objective]
    rw [h1, one_mul]
  · intro u v q
    dsimp only [grad_objective]
    rw [h1, div_one, one_mul]

/-- Claim C5 (amended theorem): in screening mode bounds_u is one identical
pair replicated for every active row coordinate (and bounds_v likewise for
columns), the pair being the max/ratio formula of boundUPair; a_sort and
b_sort in that formula are the ascending-sorted marginals when sorted = true
(screenkhornBFGS always, new_formulation with uniform=False) and the raw
marginals when sorted = false (new_formulation with its default
uniform=True). -/
theorem bounds_replicated_formula (reset sorted : Bool) (P : Params)
    (hscr : ¬ fullMode P) :
    bounds_u reset sorted P =
      List.replicate (I P).length (boundUPair reset sorted P) ∧
    bounds_v reset sorted P =
      List.replicate (J P).length (boundVPair reset sorted P) ∧
    (∀ k d, k < (I P).length →
      (bounds_u reset sorted P).getD k d = boundUPair reset sorted P) ∧
    (∀ k d, k < (J P).length →
      (bounds_v reset sorted P).getD k d = boundVPair reset sorted P) ∧
    sortedA true P = ascSort (aList P) ∧ sortedA false P = aList P ∧
    sortedB true P = ascSort (bList P) ∧ sortedB false P = bList P := by
  have hu : bounds_u reset sorted P =
      List.replicate (I P).length (boundUPair reset sorted P) := by
    rw [bounds_u, if_neg hscr]
  have hv : bounds_v reset sorted P =
      List.replicate (J P).length (boundVPair reset sorted P) := by
    rw [bounds_v, if_neg hscr]
  refine ⟨hu, hv, ?_, ?_, rfl, rfl, rfl, rfl⟩
  · intro k d hk
    rw [hu, List.getD_eq_getElem?_getD,
      List.getElem?_eq_getElem (by simpa using hk), List.getElem_replicate,
      Option.getD_some]
  · intro k d hk
    rw [hv, List.getD_eq_getElem?_getD,
      List.getElem?_eq_getElem (by simpa using hk), List.getElem_replicate,
      Option.getD_some]

/-- Claim C8 (confirmed): lbfgsb returns the full-length vectors that equal
the epsilon floors epsilon/fact_scale resp. epsilon*fact_scale away from the
active sets and the optimizer output on them, the dense plan
P[i,j] = u_full[i]*K[i,j]*v_full[j], and the optimizer diagnostics record
unchanged. -/
theorem lbfgsb_reconstruction {D : Type} (reset sorted : Bool) (warmIter : ℕ)
    (P : Params)
    (optimizer :
      (((Fin (I P).length → ℝ) × (Fin (J P).length → ℝ)) → ℝ × ((Fin (I P).length → ℝ) × (Fin (J P).length → ℝ))) →
      List (ℝ × EReal) →
      ((Fin (I P).length → ℝ) × (Fin (J P).length → ℝ)) →
      ((Fin (I P).length → ℝ) × (Fin (J P).length → ℝ)) × D) :
    (lbfgsb reset sorted warmIter P optimizer).2.2.2 =
      (optimizer (objAndGrad reset P)
        (bounds_u reset sorted P ++ bounds_v reset sorted P)
        (warmPoint reset warmIter P)).2 ∧
    (∀ i, i ∉ I P → (lbfgsb reset sorted warmIter P optimizer).1 i =
      epsilon P / fact_scale reset P) ∧
    (∀ k : Fin (I P).length,
      (lbfgsb reset sorted warmIter P optimizer).1 ((I P).get k) =
        (optimizer (objAndGrad reset P)
          (bounds_u reset sorted P ++ bounds_v reset sorted P)
          (warmPoint reset warmIter P)).1.1 k) ∧
    (∀ j, j ∉ J P → (lbfgsb reset sorted warmIter P optimizer).2.1 j =
      epsilon P * fact_scale reset P) ∧
    (∀ k : Fin (J P).length,
      (lbfgsb reset sorted warmIter P optimizer).2.1 ((J P).get k) =
        (optimizer (objAndGrad reset P)
          (bounds_u reset sorted P ++ bounds_v reset sorted P)
          (warmPoint reset warmIter P)).1.2 k) ∧
    (∀ i j, (lbfgsb reset sorted warmIter P optimizer).2.2.1 i j =
      (lbfgsb reset sorted warmIter P optimizer).1 i * K P i j *
        (lbfgsb reset sorted warmIter P optimizer).2.1 j) := by
  dsimp only [lbfgsb]
  refine ⟨rfl, ?_, ?_, ?_, ?_, fun i j => rfl⟩
  · intro i h
    rw [dif_neg h]
  · intro k
    rw [dif_pos (List.get_mem (I P) k.1 k.2)]
    exact congrArg _ (Fin.ext (List.get_indexOf (I_nodup P) k))
  · intro j h
    rw [dif_neg h]
  · intro k
    rw [dif_pos (List.get_mem (J P) k.1 k.2)]
    exact congrArg _ (Fin.ext (List.get_indexOf (J_nodup P) k))

/- Concrete instances used by witnesses and counterexamples. -/

noncomputable section

/- A full-mode instance: n = m = 1, uniform data, N = n and M = m. -/
@[reducible] def P_full : Params := ⟨1, 1, fun _ => 1, fun _ => 1, fun _ _ => 0, 1, 1, 1⟩

/- A screening instance with symmetric thresholds: n = m = 2, a = [3/4, 1/4],
b = [1/4, 3/4], C = 0, reg = 1, N = M = 1.  Here both squared thresholds are
3/8, the scale factor is 1, I = [0] and J = [1]. -/
@[reducible] def P_B : Params := ⟨2, 2, ![3/4, 1/4], ![1/4, 3/4], fun _ _ => 0, 1, 1, 1⟩

/- A screening instance with asymmetric thresholds: same as P_B except
b = [1/2, 1/2], so epsilon_u_square = 3/8, epsilon_v_square = 1/4 and the
computed fact_scale is sqrt(2/3), different from 1. -/
@[reducible] def P_A : Params := ⟨2, 2, ![3/4, 1/4], ![1/2, 1/2], fun _ _ => 0, 1, 1, 1⟩

end

theorem notfull_P_B : ¬ fullMode P_B := by decide

theorem notfull_P_A : ¬ fullMode P_A := by decide

theorem K_P_B (i : Fin 2) (j : Fin 2) : K P_B i j = 1 := by
  simp [K, P_B]

theorem K_sum_cols_P_B (i : Fin 2) : K_sum_cols P_B i = 2 := by
  rw [K_sum_cols]
  rw [Finset.sum_congr rfl (fun j _ => K_P_B i j)]
  norm_num

theorem K_sum_rows_P_B (j : Fin 2) : K_sum_rows P_B j = 2 := by
  rw [K_sum_rows]
  rw [Finset.sum_congr rfl (fun i _ => K_P_B i j)]
  norm_num

theorem K_min_P_B : K_min P_B = 1 := by
  rw [K_min, dif_pos (by norm_num : 0 < P_B.n ∧ 0 < P_B.m)]
  rw [show (fun p : Fin P_B.n × Fin P_B.m => K P_B p.1 p.2) = fun _ => (1:ℝ) from
    funext fun p => K_P_B p.1 p.2]
  exact Finset.inf'_const _ _

theorem aList_P_B : aList P_B = [3/4, 1/4] := by
  simp [aList, P_B, List.ofFn_succ]

theorem aKratios_P_B : aKratios P_B = [3/8, 1/8] := by
  rw [aKratios]
  simp only [List.ofFn_succ, List.ofFn_zero, K_sum_cols_P_B]
  norm_num [P_B]

theorem bKratios_P_B : bKratios P_B = [1/8, 3/8] := by
  rw [bKratios]
  simp only [List.ofFn_succ, List.ofFn_zero, K_sum_rows_P_B]
  norm_num [P_B]

theorem descSort_aK_P_B : descSort (aKratios P_B) = [3/8, 1/8] := by
  rw [aKratios_P_B, descSort, ascSort]
  norm_num [List.insertionSort, List.orderedInsert]

theorem descSort_bK_P_B : descSort (bKratios P_B) = [3/8, 1/8] := by
  rw [bKratios_P_B, descSort, ascSort]
  norm_num [List.insertionSort, List.orderedInsert]

theorem epsilon_u_square_P_B : epsilon_u_square P_B = 3/8 := by
  rw [epsilon_u_square, descSort_aK_P_B]
  norm_num [sliceMean, P_B]

theorem epsilon_v_square_P_B : epsilon_v_square P_B = 3/8 := by
  rw [epsilon_v_square, descSort_bK_P_B]
  norm_num [sliceMean, P_B]

theorem factScaleScr_P_B : factScaleScr P_B = 1 := by
  rw [factScaleScr, epsilon_u_square_P_B, epsilon_v_square_P_B]
  norm_num [Real.one_rpow]

theorem epsilonScr_P_B_pos : 0 < epsilonScr P_B := by
  rw [epsilonScr, epsilon_u_square_P_B, epsilon_v_square_P_B]
  exact Real.rpow_pos_of_pos (by norm_num) _

theorem epsilonScr_P_B_sq : epsilonScr P_B ^ 2 = 3/8 := by
  have base : (0:ℝ) ≤ 3/8 * (3/8) := by norm_num
  calc epsilonScr P_B ^ 2
      = ((3/8 * (3/8) : ℝ) ^ ((1:ℝ)/4)) ^ (2:ℕ) := by
        rw [epsilonScr, epsilon_u_square_P_B, epsilon_v_square_P_B]
    _ = ((3/8 * (3/8) : ℝ) ^ ((1:ℝ)/4)) ^ ((2:ℕ):ℝ) :=
        (Real.rpow_natCast _ 2).symm
    _ = (3/8 * (3/8) : ℝ) ^ (((1:ℝ)/4) * ((2:ℕ):ℝ)) := by
        rw [← Real.rpow_mul base]
    _ = (3/8 * (3/8) : ℝ) ^ ((1:ℝ)/2) := by norm_num
    _ = Real.sqrt (3/8 * (3/8) : ℝ) := (Real.sqrt_eq_rpow _).symm
    _ = Real.sqrt (((3:ℝ)/8) ^ (2:ℕ)) := by norm_num [sq]
    _ = 3/8 := Real.sqrt_sq (by norm_num)

theorem I_P_B : I P_B = [0] := by
  have h0 : P_B.a 0 ≥ epsilonScr P_B ^ 2 / factScaleScr P_B * K_sum_cols P_B 0 := by
    rw [epsilonScr_P_B_sq, factScaleScr_P_B, K_sum_cols_P_B]
    norm_num [P_B]
  have h1 : ¬ (P_B.a 1 ≥ epsilonScr P_B ^ 2 / factScaleScr P_B * K_sum_cols P_B 1) := by
    rw [epsilonScr_P_B_sq, factScaleScr_P_B, K_sum_cols_P_B]
    norm_num [P_B]
  rw [I, if_neg notfull_P_B]
  rw [show List.finRange 2 = [(0 : Fin 2), 1] from by decide]
  simp only [List.filter_cons, List.filter_nil]
  rw [decide_eq_true h0, decide_eq_false h1]
  simp

theorem J_P_B : J P_B = [1] := by
  have h0 : ¬ (P_B.b 0 ≥ epsilonScr P_B ^ 2 * factScaleScr P_B * K_sum_rows P_B 0) := by
    rw [epsilonScr_P_B_sq, factScaleScr_P_B, K_sum_rows_P_B]
    norm_num [P_B]
  have h1 : P_B.b 1 ≥ epsilonScr P_B ^ 2 * factScaleScr P_B * K_sum_rows P_B 1 := by
    rw [epsilonScr_P_B_sq, factScaleScr_P_B, K_sum_rows_P_B]
    norm_num [P_B]
  rw [J, if_neg notfull_P_B]
  rw [show List.finRange 2 = [(0 : Fin 2), 1] from by decide]
  simp only [List.filter_cons, List.filter_nil]
  rw [decide_eq_false h0, decide_eq_true h1]
  simp

theorem epsilon_P_B_eq : epsilon P_B = epsilonScr P_B := by
  rw [epsilon, if_neg notfull_P_B]

theorem epsilon_P_B_pos : 0 < epsilon P_B := epsilon_P_B_eq ▸ epsilonScr_P_B_pos

theorem ascSort_aList_P_B : ascSort (aList P_B) = [1/4, 3/4] := by
  rw [aList_P_B, ascSort]
  norm_num [List.insertionSort, List.orderedInsert]

theorem gather_raw_P_B : (gather (sortedA false P_B) (I P_B)).getD 0 0 = 3/4 := by
  rw [sortedA, if_neg Bool.false_ne_true, aList_P_B, I_P_B]
  simp [gather]

theorem gather_sorted_P_B : (gather (sortedA true P_B) (I P_B)).getD 0 0 = 1/4 := by
  rw [sortedA, if_pos rfl, ascSort_aList_P_B, I_P_B]
  simp [gather]

/- Evaluations at the asymmetric instance P_A. -/

theorem K_P_A (i : Fin 2) (j : Fin 2) : K P_A i j = 1 := by
  simp [K, P_A]

theorem K_sum_cols_P_A (i : Fin 2) : K_sum_cols P_A i = 2 := by
  rw [K_sum_cols]
  rw [Finset.sum_congr rfl (fun j _ => K_P_A i j)]
  norm_num

theorem K_sum_rows_P_A (j : Fin 2) : K_sum_rows P_A j = 2 := by
  rw [K_sum_rows]
  rw [Finset.sum_congr rfl (fun i _ => K_P_A i j)]
  norm_num

theorem aKratios_P_A : aKratios P_A = [3/8, 1/8] := by
  rw [aKratios]
  simp only [List.ofFn_succ, List.ofFn_zero, K_sum_cols_P_A]
  norm_num [P_A]

theorem bKratios_P_A : bKratios P_A = [1/4, 1/4] := by
  rw [bKratios]
  simp only [List.ofFn_succ, List.ofFn_zero, K_sum_rows_P_A]
  norm_num [P_A]

theorem descSort_aK_P_A : descSort (aKratios P_A) = [3/8, 1/8] := by
  rw [aKratios_P_A, descSort, ascSort]
  norm_num [List.insertionSort, List.orderedInsert]

theorem descSort_bK_P_A : descSort (bKratios P_A) = [1/4, 1/4] := by
  rw [bKratios_P_A, descSort, ascSort]
  norm_num [List.insertionSort, List.orderedInsert]

theorem epsilon_u_square_P_A : epsilon_u_square P_A = 3/8 := by
  rw [epsilon_u_square, descSort_aK_P_A]
  norm_num [sliceMean, P_A]

theorem epsilon_v_square_P_A : epsilon_v_square P_A = 1/4 := by
  rw [epsilon_v_square, descSort_bK_P_A]
  norm_num [sliceMean, P_A]

/- Counterexamples and witnesses. -/

/-- Claim C1 counterexample: at the screening-mode input P_A the
new_formulation variant (reset = false) ends construction with
fact_scale = sqrt((1/4)/(3/8)) different from 1 - that variant never resets
fact_scale to 1.0, so the claim that both source variants do is false. -/
theorem nf_keeps_fact_scale :
    ¬ fullMode P_A ∧ fact_scale false P_A ≠ 1 := by
  refine ⟨notfull_P_A, ?_⟩
  rw [fact_scale, if_neg notfull_P_A, if_neg Bool.false_ne_true]
  rw [factScaleScr, epsilon_u_square_P_A, epsilon_v_square_P_A]
  rw [show ((1:ℝ)/4) / (3/8) = 2/3 by norm_num]
  exact ne_of_lt (Real.rpow_lt_one (by norm_num) (by norm_num) (by norm_num))

/-- Claim C1 witness: the amended theorem applied at the concrete screening
input P_B. -/
theorem bfgs_reset_makes_scale_inert_witness :
    ¬ fullMode P_B ∧ fact_scale true P_B = 1 :=
  ⟨notfull_P_B, (bfgs_reset_makes_scale_inert P_B notfull_P_B).1⟩

/-- Claim C2 witness: the full-mode equivalence applied at P_full with
u = v = 1. -/
theorem full_mode_equivalence_witness :
    fullMode P_full ∧
    (∀ i : Fin P_full.n, (0:ℝ) < (fun _ : Fin P_full.n => (1:ℝ)) i) ∧
    epsilon P_full = 0 ∧ fact_scale true P_full = 1 := by
  have hf : fullMode P_full := by decide
  have H := full_mode_equivalence true P_full hf (fun _ => 1) (fun _ => 1)
    (fun _ => one_pos) (fun _ => one_pos)
  exact ⟨hf, fun _ => one_pos, H.2.2.1, H.2.2.2.1⟩

/-- Claim C3 witness: the threshold formulas applied at P_B. -/
theorem screening_thresholds_witness :
    (¬ fullMode P_B ∧ 1 ≤ P_B.N ∧ P_B.N ≤ P_B.n ∧ 1 ≤ P_B.M ∧ P_B.M ≤ P_B.m) ∧
    epsilon P_B = ((descSort (aKratios P_B)).getD (P_B.N - 1) 0 *
      (descSort (bKratios P_B)).getD (P_B.M - 1) 0) ^ ((1:ℝ)/4) := by
  have H := screening_thresholds P_B notfull_P_B (by decide) (by decide)
    (by decide) (by decide)
  exact ⟨⟨notfull_P_B, by decide, by decide, by decide, by decide⟩, H.2.2.1⟩

/-- Claim C4 witness: the active-set membership test applied at P_B and
index 0. -/
theorem active_set_membership_witness :
    ¬ fullMode P_B ∧ ((0 : Fin P_B.n) ∈ I P_B ↔
      P_B.a 0 ≥ epsilonScr P_B ^ 2 / factScaleScr P_B * K_sum_cols P_B 0) :=
  ⟨notfull_P_B, (active_set_membership P_B notfull_P_B).2.2.1 0⟩

/-- Claim C5 counterexample: at the screening input P_B, whose marginal a is
not ascending, the new_formulation default (uniform=True, raw marginals)
produces a bounds_u entry whose upper bound is a[I][0]/(eps*m*K_min) =
(3/4)/(2*eps), different from the pair the claimed formula gives with the
SORTED marginal vectors, whose upper bound is (1/4)/(2*eps); so the claimed
formula with sorted vectors is not what both variants compute. -/
theorem nf_default_bounds_not_sorted_formula :
    ¬ fullMode P_B ∧
    (bounds_u false false P_B).getD 0 ((0:ℝ), ((0:ℝ) : EReal)) ≠
      boundUPair false true P_B := by
  refine ⟨notfull_P_B, ?_⟩
  have hget : (bounds_u false false P_B).getD 0 ((0:ℝ), ((0:ℝ):EReal)) =
      boundUPair false false P_B := by
    rw [bounds_u, if_neg notfull_P_B, I_P_B]
    simp
  rw [hget]
  intro hcontra
  have h2 : (((gather (sortedA false P_B) (I P_B)).getD 0 0 /
        (epsilon P_B * (P_B.m : ℝ) * K_min P_B) : ℝ) : EReal) =
      (((gather (sortedA true P_B) (I P_B)).getD 0 0 /
        (epsilon P_B * (P_B.m : ℝ) * K_min P_B) : ℝ) : EReal) :=
    congrArg Prod.snd hcontra
  rw [EReal.coe_eq_coe_iff] at h2
  rw [gather_raw_P_B, gather_sorted_P_B, K_min_P_B] at h2
  have hD : epsilon P_B * (P_B.m : ℝ) * 1 ≠ 0 := by
    have hm : ((P_B.m : ℕ) : ℝ) = 2 := by norm_num
    rw [hm]
    exact ne_of_gt (mul_pos (mul_pos epsilon_P_B_pos (by norm_num)) one_pos)
  rw [div_eq_div_iff hD hD] at h2
  have h4 := mul_right_cancel₀ hD h2
  norm_num at h4

/-- Claim C5 witness: the amended bounds description applied at P_B with the
new_formulation default flags. -/
theorem bounds_replicated_formula_witness :
    ¬ fullMode P_B ∧ 0 < (I P_B).length ∧
    (bounds_u false false P_B).getD 0 ((0:ℝ), ((0:ℝ):EReal)) =
      boundUPair false false P_B := by
  have hlen : 0 < (I P_B).length := by
    rw [I_P_B]
    norm_num
  exact ⟨notfull_P_B, hlen,
    (bounds_replicated_formula false false P_B notfull_P_B).2.2.1 0 _ hlen⟩

/-- Claim C6 counterexample: the screenkhornBFGS lbfgsb call passes
max_iter = 3 and the while-loop `cpt = 1; while cpt < max_iter` then runs
its body exactly twice, so the number of alternating update rounds is 2,
not a number between 3 and 10. -/
theorem warm_start_rounds_not_between_three_and_ten :
    sinkLoopCount 1 bfgsWarmIter = 2 ∧
    ¬ (3 ≤ sinkLoopCount 1 bfgsWarmIter ∧ sinkLoopCount 1 bfgsWarmIter ≤ 10) := by
  rw [sinkLoopCount_eq, bfgsWarmIter]
  norm_num

/-- Claim C8 witness: the reconstruction facts applied at P_B with a stub
optimizer; index 1 is inactive there, so the returned full u vector holds
the floor epsilon/fact_scale at position 1. -/
theorem lbfgsb_reconstruction_witness :
    (1 : Fin P_B.n) ∉ I P_B ∧
    (lbfgsb false false 10 P_B
      (fun _ _ _ => ((fun _ => (5:ℝ), fun _ => (7:ℝ)), (0:ℕ)))).1 1 =
      epsilon P_B / fact_scale false P_B := by
  have h : (1 : Fin P_B.n) ∉ I P_B := by
    rw [I_P_B]
    decide
  exact ⟨h, (lbfgsb_reconstruction false false 10 P_B
    (fun _ _ _ => ((fun _ => (5:ℝ), fun _ => (7:ℝ)), (0:ℕ)))).2.1 1 h⟩

/-- Claim C10 witness: the in-place projection facts applied to a concrete
store and the references 0 and 1. -/
theorem restricted_sinkhorn_in_place_witness :
    (0 : ℕ) ≠ 1 ∧
    (restricted_sinkhorn_store false P_full ⟨0, fun _ => []⟩ 0 1 1).2.1 = 0 :=
  ⟨by decide,
    (restricted_sinkhorn_in_place false P_full ⟨0, fun _ => []⟩ 0 1 (by decide)).1⟩

end Screenkhorn
